import Mathlib

/-
Verification of the savant-real core pipeline (savant_core/agi_rrf_core.py).

Shallow embedding conventions:
* Python floats are modelled as real numbers (ℝ).  Where the code's
  behaviour depends on IEEE-double overflow or underflow of `math.exp`
  (only in `sigmoid`), the two thresholds are made explicit constants and
  the corresponding branches of the source are reproduced literally.
* numpy arrays are modelled as `List ℝ`.
* Python dicts keyed by feature name are modelled by the `FeatureSet`
  structure (the 15 canonical entries, in the source's insertion order)
  together with its association-list view `fsList` and the defaulting
  lookup `fsGetD` (the model of `dict.get(name, default)`).
* Exceptions are modelled with `Except String`: an operation that is
  unavailable or raises yields `Except.error` carrying the cause.
-/

/-- Largest argument of IEEE-double `math.exp` that does not overflow
(log of the largest finite double); `math.exp y` raises `OverflowError`
for `y` above this. -/
noncomputable def expOverflowBound : ℝ := 709.782712893384

/-- Argument below which IEEE-double `math.exp` underflows to exactly `0.0`
(log of the smallest subnormal double). -/
noncomputable def expUnderflowBound : ℝ := -745.133219101941

/-- Model of `sigmoid` from agi_rrf_core.py: `1/(1+exp(-x))` inside a
`try`; an `OverflowError` from `math.exp(-x)` yields `0.0` for negative
`x` and `1.0` otherwise; when `exp(-x)` underflows the double result is
exactly `0.0` and the division returns `1.0`. -/
noncomputable def sigmoid (x : ℝ) : ℝ :=
  if expOverflowBound < -x then (if x < 0 then 0 else 1)
  else if -x < expUnderflowBound then 1 / (1 + 0)
  else 1 / (1 + Real.exp (-x))

/-- Sum of squares of the entries of a vector. -/
noncomputable def sumSq (l : List ℝ) : ℝ := (l.map (fun t => t ^ 2)).sum

/-- Model of `numpy.linalg.norm`: the Euclidean norm of a vector. -/
noncomputable def l2norm (l : List ℝ) : ℝ := Real.sqrt (sumSq l)

/-- Model of `numpy.dot` on two equal-length vectors. -/
noncomputable def dotList (a b : List ℝ) : ℝ := (List.zipWith (fun u v => u * v) a b).sum

/-- Model of `safe_cosine` from agi_rrf_core.py: `0.0` when either norm is
zero, otherwise the normalized dot product. -/
noncomputable def safe_cosine (a b : List ℝ) : ℝ :=
  if l2norm a = 0 ∨ l2norm b = 0 then 0
  else dotList a b / (l2norm a * l2norm b)

/-- Model of `token_entropy` from agi_rrf_core.py: character-frequency
entropy with the `1e-12` epsilon inside the logarithm.  `text.dedup`
enumerates the distinct characters (the keys of the `Counter`), `total`
is the sum of all counts, and the accumulated `ent -= p * log(p + 1e-12)`
is the sum of the negated terms. -/
noncomputable def token_entropy (text : List Char) : ℝ :=
  if text = [] then 0
  else
    let total : ℕ := (text.dedup.map (fun c => text.count c)).sum
    (text.dedup.map (fun c =>
      -(((text.count c : ℝ) / (total : ℝ)) *
        Real.log ((text.count c : ℝ) / (total : ℝ) + 1e-12)))).sum

/-- Arithmetic mean of a vector (model of `numpy.ndarray.mean` on the
nonempty slices the source takes it over). -/
noncomputable def mean (l : List ℝ) : ℝ := l.sum / l.length

/-- Magnitude of the one-sided discrete Fourier transform, the value of
`np.abs(scipy.fft.rfft(x))` on a NONEMPTY input: for input length `n ≥ 1`
it has `n / 2 + 1` bins, bin `k` being `|∑ j, x_j · exp(-2·π·i·j·k / n)|`.
This pure function is the nonempty-regime view; the library call itself
raises `ValueError` on a zero-length input, which `rfftE` models — the
`[]` returned here for the empty vector is a placeholder the library
never produces. -/
noncomputable def rfftMag (x : List ℝ) : List ℝ :=
  if x.length = 0 then []
  else (List.range (x.length / 2 + 1)).map (fun (k : ℕ) =>
    Complex.abs (∑ j ∈ Finset.range x.length,
      ((x.getD j 0 : ℝ) : ℂ) *
        Complex.exp (-(2 * Real.pi * Complex.I) * j * (k : ℂ) / x.length)))

/-- Helper for `argmax`: scans the tail with the current index, the best
index so far and the best value so far; a later element replaces the best
only when strictly greater, matching `np.argmax`'s first-maximum rule. -/
noncomputable def argmaxAux : List ℝ → ℕ → ℕ → ℝ → ℕ
  | [], _, bi, _ => bi
  | a :: t, i, bi, bv => if bv < a then argmaxAux t (i + 1) i a else argmaxAux t (i + 1) bi bv

/-- Model of `np.argmax`: index of the first maximal entry. -/
noncomputable def argmax : List ℝ → ℕ
  | [] => 0
  | a :: t => argmaxAux t 1 0 a

/-- The four outputs of `spectrum_features`. -/
structure SpectrumFeatures where
  freq_low : ℝ
  freq_mid : ℝ
  freq_high : ℝ
  dominant_frequency : ℝ

/-- Pure view of the body of `spectrum_features` from agi_rrf_core.py:
band means of the one-sided magnitude spectrum (`y[:max(1,n//6)]`,
`y[max(1,n//6):max(2,n//3)]`, `y[max(2,n//3):]`, the latter two
defaulting to `0.0` when `n < 3`) and the argmax bin normalized by
`max(1, n-1)`.  The faithful model of the source function, including the
library's error path on a zero-length input, is `spectrum_featuresE`;
on every nonempty input the two agree. -/
noncomputable def spectrum_features (vec : List ℝ) : SpectrumFeatures :=
  let y := rfftMag vec
  if y.length = 0 then ⟨0, 0, 0, 0⟩
  else
    let n := y.length
    let low := mean (y.take (max 1 (n / 6)))
    let mid := if 3 ≤ n then mean ((y.take (max 2 (n / 3))).drop (max 1 (n / 6))) else 0
    let high := if 3 ≤ n then mean (y.drop (max 2 (n / 3))) else 0
    let dom := (argmax y : ℝ) / ((max 1 (n - 1) : ℕ) : ℝ)
    ⟨low, mid, high, dom⟩

/-- The text of the `ValueError` scipy's pocketfft raises for a
zero-length transform. -/
def rfftErrorMsg : String := "invalid number of data points (0) specified"

/-- Faithful model of the `np.abs(scipy.fft.rfft(x))` call: scipy raises
`ValueError` on a zero-length input (modelled as `Except.error`), and
returns the one-sided magnitude spectrum otherwise. -/
noncomputable def rfftE (x : List ℝ) : Except String (List ℝ) :=
  if x.length = 0 then Except.error rfftErrorMsg
  else Except.ok (rfftMag x)

/-- Faithful model of `spectrum_features` from agi_rrf_core.py including
the library's error path: the `rfft` call happens first, so a zero-length
input raises before the `y.size == 0` guard at lines 36-37 can run (that
guard is dead code: every nonempty input yields `n/2 + 1 ≥ 1` bins); on a
nonempty input the result is the pure band decomposition above. -/
noncomputable def spectrum_featuresE (vec : List ℝ) : Except String SpectrumFeatures :=
  match rfftE vec with
  | Except.error e => Except.error e
  | Except.ok _ => Except.ok (spectrum_features vec)

/-- Population standard deviation (model of `np.std`, `ddof = 0`). -/
noncomputable def stdDev (l : List ℝ) : ℝ :=
  Real.sqrt (mean (l.map (fun t => (t - mean l) ^ 2)))

/-- The named feature set produced by `AGIRRFCore.extract_features`,
fields in the dict's insertion order. -/
structure FeatureSet where
  semantic_margin : ℝ
  cosine_prompt_answer : ℝ
  token_entropy : ℝ
  dirac_energy : ℝ
  dirac_shell_std : ℝ
  freq_low : ℝ
  freq_mid : ℝ
  freq_high : ℝ
  coherence_ratio : ℝ
  phi : ℝ
  omega : ℝ
  S_RRF : ℝ
  C_RRF : ℝ
  dominant_frequency : ℝ
  Phi1_geometric : ℝ

/-- Association-list view of a `FeatureSet`: the (name, value) pairs of
the Python dict, in insertion order. -/
def fsList (f : FeatureSet) : List (String × ℝ) :=
  match f with
  | ⟨sm, cpa, te, de, ds, fl, fm, fh, cr, ph, om, sr, crf, df, p1⟩ =>
    [("semantic_margin", sm), ("cosine_prompt_answer", cpa), ("token_entropy", te),
     ("dirac_energy", de), ("dirac_shell_std", ds), ("freq_low", fl), ("freq_mid", fm),
     ("freq_high", fh), ("coherence_ratio", cr), ("phi", ph), ("omega", om),
     ("S_RRF", sr), ("C_RRF", crf), ("dominant_frequency", df), ("Phi1_geometric", p1)]

/-- Model of `feats.get(name, default)` on the feature dict. -/
def fsGetD (f : FeatureSet) (nm : String) (d : ℝ) : ℝ :=
  (((fsList f).find? (fun p => p.1 == nm)).map Prod.snd).getD d

/-- Model of `AGIRRFCore.extract_features`: embeds prompt and answer with
the injected embedder and assembles the 15 named features exactly as the
source does (spectral features over the answer embedding only). -/
noncomputable def extract_features (encode : String → List ℝ) (prompt answer : String) :
    FeatureSet :=
  let ep := encode prompt
  let ea := encode answer
  let cos := safe_cosine ep ea
  let semantic_margin := cos - 0.5
  let ent := token_entropy (prompt ++ answer).data
  let dirac_energy := l2norm (List.zipWith (fun u v => u - v) ep ea)
  let dirac_shell_std := stdDev (ep.map (fun t => |t|)) + stdDev (ea.map (fun t => |t|))
  let sf := spectrum_features ea
  let cohr := (|cos| + 1e-9) / (1 + ent)
  let phi : ℝ := 0.6321205588
  let omega := 2 * Real.pi * max 1e-6 sf.dominant_frequency
  let S_RRF := sigmoid (2 * semantic_margin)
  let C_RRF := 1 - |0.5 - cos|
  let Phi1_geometric := sigmoid (1.5 * cos)
  ⟨semantic_margin, cos, ent, dirac_energy, dirac_shell_std,
   sf.freq_low, sf.freq_mid, sf.freq_high, cohr, phi, omega,
   S_RRF, C_RRF, sf.dominant_frequency, Phi1_geometric⟩

/-- The canonical feature-name ordering from `AGIRRFCore._feature_names`. -/
def canonicalFeatureNames : List String :=
  ["semantic_margin", "cosine_prompt_answer", "token_entropy", "dirac_energy",
   "dirac_shell_std", "freq_low", "freq_mid", "freq_high", "coherence_ratio",
   "phi", "omega", "S_RRF", "C_RRF", "dominant_frequency", "Phi1_geometric"]

/-- The Classifier Adapter (`meta_logit`): the probability operation and the
decision-score operation each either produce the scalar the source extracts
(`predict_proba(x)[0, 1]`, resp. `decision_function(x)[0]`) or fail —
`Except.error` covers both the attribute being absent and the call raising.
`featureNamesIn` models the optional `feature_names_in_` attribute. -/
structure MetaLogit where
  predictProba : List ℝ → Except String ℝ
  decisionFunction : List ℝ → Except String ℝ
  featureNamesIn : Option (List String)

/-- The orchestrator's state: injected embedder, classifier adapter and the
expected feature count (default 15 in the source). -/
structure AGIRRFCore where
  embedder : String → List ℝ
  meta_logit : MetaLogit
  expected_features : ℕ

/-- Model of `AGIRRFCore._feature_names`: the adapter's declared ordering
when present, else the canonical 15 names. -/
def feature_names (c : AGIRRFCore) : List String :=
  c.meta_logit.featureNamesIn.getD canonicalFeatureNames

/-- The pad/truncate pass of `AGIRRFCore.predict` (lines 119-122): right-pad
with zeros when shorter than `n`, keep the first `n` when longer, pass
through unchanged when equal. -/
def padTrunc (x : List ℝ) (n : ℕ) : List ℝ :=
  if x.length < n then x ++ List.replicate (n - x.length) 0
  else if n < x.length then x.take n
  else x

/-- The Feature Vectorizer (inline in `AGIRRFCore.predict`, lines 117-122):
look up each name of `order` in the feature dict with default `0.0`, then
reconcile the length to `n`. -/
def vectorize (f : FeatureSet) (order : List String) (n : ℕ) : List ℝ :=
  padTrunc (order.map (fun nm => fsGetD f nm 0)) n

/-- The result dict of `AGIRRFCore.predict`. -/
structure PredictionResult where
  p_good : ℝ
  SRRF : ℝ
  CRRF : ℝ
  E_phi : ℝ
  cosine : ℝ
  phi : ℝ
  features : FeatureSet

/-- The result dict built at the end of `AGIRRFCore.predict` from the
obtained probability and the feature dict (`feats.get("C_RRF", 0.0)`,
`0.25 + 0.5 * feats.get("cosine_prompt_answer", 0.0)`, and
`feats.get("phi", 0.6321205588)` become direct field reads: the extractor
always populates those keys). -/
noncomputable def composeResult (p : ℝ) (feats : FeatureSet) : PredictionResult :=
  ⟨p, p, feats.C_RRF, 0.25 + 0.5 * feats.cosine_prompt_answer,
   feats.cosine_prompt_answer, feats.phi, feats⟩

/-- Model of `AGIRRFCore.predict`: extract features, vectorize them over the
resolved name ordering, then try `predict_proba`; on any failure fall back
to `sigmoid(decision_function(x))`; if that fails too, the exception
propagates (Python chains the first failure onto it as context). -/
noncomputable def predict (c : AGIRRFCore) (prompt answer : String) :
    Except String PredictionResult :=
  let feats := extract_features c.embedder prompt answer
  let x := vectorize feats (feature_names c) c.expected_features
  match c.meta_logit.predictProba x with
  | Except.ok p => Except.ok (composeResult p feats)
  | Except.error _ =>
    match c.meta_logit.decisionFunction x with
    | Except.ok s => Except.ok (composeResult (sigmoid s) feats)
    | Except.error e => Except.error e

/-- A fixed embedder for witnesses. -/
noncomputable def wEmbed : String → List ℝ := fun _ => [1, 0]

/-- An embedder whose every output is a zero vector, for witnesses. -/
noncomputable def wEmbedZero : String → List ℝ := fun _ => List.replicate 3 0

/-- Concrete prompt text used by witnesses. -/
def wPrompt : String := "p"

/-- Concrete answer text used by witnesses. -/
def wAnswer : String := "a"

/-- A classifier adapter on which both scoring operations fail. -/
def mlBothFail : MetaLogit :=
  ⟨fun _ => Except.error ("predict_proba raised"),
   fun _ => Except.error ("decision_function raised"), Option.none⟩

/-- A classifier adapter exposing only a decision-score operation that
returns `2.0`. -/
noncomputable def mlDecisionOnly : MetaLogit :=
  ⟨fun _ => Except.error ("no predict_proba"), fun _ => Except.ok 2, Option.none⟩

/-- Core wired to the adapter whose two operations both fail. -/
noncomputable def coreBothFail : AGIRRFCore := ⟨wEmbed, mlBothFail, 15⟩

/-- Core wired to the decision-score-only adapter. -/
noncomputable def coreDecisionOnly : AGIRRFCore := ⟨wEmbed, mlDecisionOnly, 15⟩

/-- A concrete feature set with pairwise distinct values, for witnesses. -/
noncomputable def fsTest : FeatureSet := ⟨1, 2, 3, 4, 5, 6, 7, 8, 9, 10, 11, 12, 13, 14, 15⟩

/- ------------------------------------------------------------------ -/
/- Helper lemmas                                                      -/
/- ------------------------------------------------------------------ -/

/-- The vectorizer always returns exactly `n` entries. -/
theorem vectorize_length (f : FeatureSet) (order : List String) (n : ℕ) :
    (vectorize f order n).length = n := by
  unfold vectorize padTrunc
  split_ifs with h1 h2 <;> simp_all <;> omega

theorem sigmoid_mem_Icc (x : ℝ) : 0 ≤ sigmoid x ∧ sigmoid x ≤ 1 := by
  unfold sigmoid
  split_ifs with h1 h2 h3
  · norm_num
  · norm_num
  · norm_num
  · constructor
    · positivity
    · rw [div_le_one (by positivity)]
      linarith [Real.exp_pos (-x)]

theorem sigmoid_eq_lo (x : ℝ) (h1 : expOverflowBound < -x) : sigmoid x = 0 := by
  have hb : (0:ℝ) < expOverflowBound := by norm_num [expOverflowBound]
  have hx : x < 0 := by linarith
  rw [sigmoid, if_pos h1, if_pos hx]

theorem sigmoid_eq_hi (x : ℝ) (h1 : ¬ expOverflowBound < -x)
    (h2 : -x < expUnderflowBound) : sigmoid x = 1 := by
  rw [sigmoid, if_neg h1, if_pos h2]
  norm_num

theorem sigmoid_eq_mid (x : ℝ) (h1 : ¬ expOverflowBound < -x)
    (h2 : ¬ -x < expUnderflowBound) : sigmoid x = 1 / (1 + Real.exp (-x)) := by
  rw [sigmoid, if_neg h1, if_neg h2]

theorem sigmoid_monotone (a b : ℝ) (hab : a ≤ b) : sigmoid a ≤ sigmoid b := by
  rcases lt_or_le expOverflowBound (-a) with hA | hA
  · rw [sigmoid_eq_lo a hA]
    exact (sigmoid_mem_Icc b).1
  · have hA' : ¬ expOverflowBound < -a := not_lt.mpr hA
    have hBn : ¬ expOverflowBound < -b := not_lt.mpr (by linarith)
    rcases lt_or_le (-a) expUnderflowBound with hU | hU
    · rw [sigmoid_eq_hi a hA' hU, sigmoid_eq_hi b hBn (by linarith)]
    · have hU' : ¬ (-a) < expUnderflowBound := not_lt.mpr hU
      rw [sigmoid_eq_mid a hA' hU']
      rcases lt_or_le (-b) expUnderflowBound with hV | hV
      · rw [sigmoid_eq_hi b hBn hV]
        rw [div_le_one (by positivity)]
        linarith [Real.exp_pos (-a)]
      · rw [sigmoid_eq_mid b hBn (not_lt.mpr hV)]
        have he : Real.exp (-b) ≤ Real.exp (-a) := Real.exp_le_exp.mpr (by linarith)
        exact one_div_le_one_div_of_le (by positivity) (by linarith)

theorem sumSq_nonneg (l : List ℝ) : 0 ≤ sumSq l := by
  apply List.sum_nonneg
  intro x hx
  obtain ⟨t, _, rfl⟩ := List.mem_map.mp hx
  positivity

/-- Cauchy-Schwarz for the zipWith dot product, by induction on both
vectors. -/
theorem dotList_sq_le (a b : List ℝ) : dotList a b ^ 2 ≤ sumSq a * sumSq b := by
  induction a generalizing b with
  | nil => simp [dotList, sumSq]
  | cons x xs ih =>
    cases b with
    | nil => simp [dotList, sumSq]
    | cons y ys =>
      have h := ih ys
      have hA : 0 ≤ sumSq xs := sumSq_nonneg xs
      have hB : 0 ≤ sumSq ys := sumSq_nonneg ys
      simp only [dotList, sumSq, List.zipWith_cons_cons, List.map_cons, List.sum_cons]
        at h hA hB ⊢
      set d := (List.zipWith (fun u v => u * v) xs ys).sum with hd
      set A := (xs.map (fun t => t ^ 2)).sum with hA2
      set B := (ys.map (fun t => t ^ 2)).sum with hB2
      have hsub : 0 ≤ A * B - d ^ 2 := by linarith
      rcases eq_or_lt_of_le hA with hA0 | hA0
      · have hdz : d = 0 := by nlinarith [sq_nonneg d]
        rw [hdz, ← hA0]
        nlinarith [sq_nonneg x, sq_nonneg (x * y)]
      · nlinarith [sq_nonneg (x * d - A * y), hsub, hA0,
          mul_nonneg hsub (sq_nonneg x), mul_nonneg hsub (le_of_lt hA0)]

theorem abs_dot_le (a b : List ℝ) : |dotList a b| ≤ l2norm a * l2norm b := by
  have h := dotList_sq_le a b
  have hm : l2norm a * l2norm b = Real.sqrt (sumSq a * sumSq b) :=
    (Real.sqrt_mul (sumSq_nonneg a) _).symm
  rw [hm, ← Real.sqrt_sq_eq_abs]
  exact Real.sqrt_le_sqrt h

/- ------------------------------------------------------------------ -/
/- Claim theorems                                                     -/
/- ------------------------------------------------------------------ -/

/-- C6: safe_cosine is total, lies in [-1,1] for equal-length vectors,
returns 0 whenever either vector has zero norm, and in particular returns
0 on a zero vector. -/
theorem safe_cosine_claim :
    (∀ a b : List ℝ, a.length = b.length →
      -1 ≤ safe_cosine a b ∧ safe_cosine a b ≤ 1) ∧
    (∀ a b : List ℝ, l2norm a = 0 ∨ l2norm b = 0 → safe_cosine a b = 0) ∧
    (∀ (n : ℕ) (b : List ℝ), safe_cosine (List.replicate n 0) b = 0) := by
  have hbound : ∀ a b : List ℝ, -1 ≤ safe_cosine a b ∧ safe_cosine a b ≤ 1 := by
    intro a b
    unfold safe_cosine
    split_ifs with h
    · norm_num
    · push_neg at h
      have ha : 0 < l2norm a := lt_of_le_of_ne (Real.sqrt_nonneg _) (Ne.symm h.1)
      have hb : 0 < l2norm b := lt_of_le_of_ne (Real.sqrt_nonneg _) (Ne.symm h.2)
      have habs : |dotList a b / (l2norm a * l2norm b)| ≤ 1 := by
        rw [abs_div, abs_of_pos (mul_pos ha hb), div_le_one (mul_pos ha hb)]
        exact abs_dot_le a b
      exact abs_le.mp habs
  refine ⟨fun a b _ => hbound a b, ?_, ?_⟩
  · intro a b h
    unfold safe_cosine
    rw [if_pos h]
  · intro n b
    have hs : sumSq (List.replicate n 0) = 0 := by
      apply List.sum_eq_zero
      intro x hx
      obtain ⟨t, ht, rfl⟩ := List.mem_map.mp hx
      have ht0 : t = 0 := List.eq_of_mem_replicate ht
      simp [ht0]
    have hz : l2norm (List.replicate n 0) = 0 := by
      simp [l2norm, hs]
    unfold safe_cosine
    rw [if_pos (Or.inl hz)]

/-- Witness for C6: the range clause at the concrete equal-length pair
([3,4], [1,2]). -/
theorem safe_cosine_claim_witness :
    -1 ≤ safe_cosine [3, 4] [1, 2] ∧ safe_cosine [3, 4] [1, 2] ≤ 1 :=
  safe_cosine_claim.1 [3, 4] [1, 2] rfl

/-- C5: sigmoid never raises (it is a total function saturating on
overflow), its output is always in [0,1], it is monotonically
non-decreasing, and sigmoid(-1000) = 0, sigmoid(1000) = 1,
sigmoid(0) = 0.5. -/
theorem sigmoid_claim :
    (∀ x : ℝ, 0 ≤ sigmoid x ∧ sigmoid x ≤ 1) ∧
    (∀ a b : ℝ, a ≤ b → sigmoid a ≤ sigmoid b) ∧
    sigmoid (-1000) = 0 ∧ sigmoid 1000 = 1 ∧ sigmoid 0 = 0.5 := by
  refine ⟨sigmoid_mem_Icc, sigmoid_monotone, ?_, ?_, ?_⟩
  · exact sigmoid_eq_lo (-1000) (by norm_num [expOverflowBound])
  · exact sigmoid_eq_hi 1000 (by norm_num [expOverflowBound])
      (by norm_num [expUnderflowBound])
  · rw [sigmoid_eq_mid 0 (by norm_num [expOverflowBound])
      (by norm_num [expUnderflowBound])]
    rw [neg_zero, Real.exp_zero]
    norm_num

/-- Witness for C5: the monotonicity clause applied at the concrete pair
(-5, 5), the hypothesis discharged numerically. -/
theorem sigmoid_claim_witness : sigmoid (-5) ≤ sigmoid 5 :=
  sigmoid_claim.2.1 (-5) 5 (by norm_num)

/-- C4: the vectorizer always produces length exactly `n`; names missing
from the feature set default to `0.0`; with looked-up width `k < n` the
result is the `k` lookups in order followed by `n - k` zeros; with
`k > n` it is the first `n` lookups in order. -/
theorem vectorize_claim (f : FeatureSet) (order : List String) (n : ℕ) :
    (vectorize f order n).length = n ∧
    (∀ nm, nm ∉ (fsList f).map Prod.fst → fsGetD f nm 0 = 0) ∧
    (order.length < n →
      vectorize f order n =
        order.map (fun nm => fsGetD f nm 0) ++ List.replicate (n - order.length) 0) ∧
    (n < order.length →
      vectorize f order n = (order.map (fun nm => fsGetD f nm 0)).take n) := by
  refine ⟨vectorize_length f order n, ?_, ?_, ?_⟩
  · intro nm h
    have hn : (fsList f).find? (fun p => p.1 == nm) = Option.none := by
      rw [List.find?_eq_none]
      intro p hp
      simp only [beq_iff_eq]
      exact fun hc => h (hc ▸ List.mem_map_of_mem Prod.fst hp)
    simp [fsGetD, hn]
  · intro h
    unfold vectorize padTrunc
    rw [if_pos (by simpa using h)]
    simp
  · intro h
    unfold vectorize padTrunc
    rw [if_neg (by simp; omega), if_pos (by simpa using h)]

/-- Witness for C4: padding at width 2 against expected length 3 keeps the
two lookups ("phi" present with value 10, "nope" absent hence 0) and
appends one zero. -/
theorem vectorize_claim_witness :
    vectorize fsTest ["phi", "nope"] 3 = [10, 0, 0] := by
  have h := (vectorize_claim fsTest ["phi", "nope"] 3).2.2.1 (by norm_num)
  rw [h]
  simp [fsTest, fsList, fsGetD, List.find?]

/-- C9: once the vector already has the expected length, re-applying the
pad/truncate reconciliation pass is the identity: the vectorizer is
idempotent, re-application acting as a same-length no-op. -/
theorem vectorize_idempotent_claim (f : FeatureSet) (order : List String) (n : ℕ) :
    padTrunc (vectorize f order n) n = vectorize f order n := by
  unfold padTrunc
  rw [vectorize_length f order n]
  simp

theorem sigmoid_two_eq : sigmoid 2 = 1 / (1 + Real.exp (-2)) :=
  sigmoid_eq_mid 2 (by norm_num [expOverflowBound]) (by norm_num [expUnderflowBound])

theorem sigmoid_two_near : |sigmoid 2 - 0.8808| < 1e-3 := by
  have h1 : (2.71:ℝ) < Real.exp 1 := lt_trans (by norm_num) Real.exp_one_gt_d9
  have h2 : Real.exp 1 < 2.72 := lt_trans Real.exp_one_lt_d9 (by norm_num)
  have hp : (0:ℝ) < Real.exp 1 := Real.exp_pos 1
  have hsq : Real.exp (-2:ℝ) = 1 / (Real.exp 1 * Real.exp 1) := by
    rw [Real.exp_neg, show (2:ℝ) = 1 + 1 by norm_num, Real.exp_add, inv_eq_one_div]
  have hlo : (7.3441:ℝ) < Real.exp 1 * Real.exp 1 := by nlinarith
  have hhi : Real.exp 1 * Real.exp 1 < 7.3984 := by nlinarith
  have he1 : Real.exp (-2:ℝ) < 1 / 7.3441 := by
    rw [hsq]
    apply one_div_lt_one_div_of_lt (by norm_num) hlo
  have he2 : 1 / (7.3984:ℝ) < Real.exp (-2:ℝ) := by
    rw [hsq]
    apply one_div_lt_one_div_of_lt (by positivity) hhi
  have hd : (0:ℝ) < 1 + Real.exp (-2) := by positivity
  have hs : sigmoid 2 * (1 + Real.exp (-2)) = 1 := by
    rw [sigmoid_two_eq]
    field_simp
  rw [abs_lt]
  constructor <;> nlinarith

/-- C3: predict prefers the probability operation; when it fails and the
decision-score operation returns `s` on the vectorized features, the
result's `p_good` is `sigmoid s`; and `sigmoid 2` is within `1e-3` of
`0.8808`. -/
theorem predict_fallback_claim (c : AGIRRFCore) (prompt answer : String) :
    (∀ pr, c.meta_logit.predictProba
        (vectorize (extract_features c.embedder prompt answer) (feature_names c)
          c.expected_features) = Except.ok pr →
      predict c prompt answer =
        Except.ok (composeResult pr (extract_features c.embedder prompt answer))) ∧
    (∀ e s, c.meta_logit.predictProba
        (vectorize (extract_features c.embedder prompt answer) (feature_names c)
          c.expected_features) = Except.error e →
      c.meta_logit.decisionFunction
        (vectorize (extract_features c.embedder prompt answer) (feature_names c)
          c.expected_features) = Except.ok s →
      predict c prompt answer =
        Except.ok (composeResult (sigmoid s) (extract_features c.embedder prompt answer))) ∧
    |sigmoid 2 - 0.8808| < 1e-3 := by
  refine ⟨?_, ?_, sigmoid_two_near⟩
  · intro pr h
    simp only [predict, h]
  · intro e s h1 h2
    simp only [predict, h1, h2]

/-- Witness for C3: an adapter exposing only a decision-score operation
returning `2.0` makes predict succeed with `p_good = sigmoid 2`. -/
theorem predict_fallback_claim_witness :
    predict coreDecisionOnly wPrompt wAnswer =
      Except.ok (composeResult (sigmoid 2)
        (extract_features coreDecisionOnly.embedder wPrompt wAnswer)) :=
  (predict_fallback_claim coreDecisionOnly wPrompt wAnswer).2.1
    ("no predict_proba") 2 rfl rfl

/-- C1: when both classifier operations fail on the vectorized features,
predict surfaces the single propagated error carrying the underlying
cause (Python chains the probability-path failure onto it as context) and
never returns a result. -/
theorem predict_both_fail_claim (c : AGIRRFCore) (prompt answer : String) (e1 e2 : String)
    (h1 : c.meta_logit.predictProba
        (vectorize (extract_features c.embedder prompt answer) (feature_names c)
          c.expected_features) = Except.error e1)
    (h2 : c.meta_logit.decisionFunction
        (vectorize (extract_features c.embedder prompt answer) (feature_names c)
          c.expected_features) = Except.error e2) :
    predict c prompt answer = Except.error e2 ∧
      ∀ r, predict c prompt answer ≠ Except.ok r := by
  have hp : predict c prompt answer = Except.error e2 := by
    simp only [predict, h1, h2]
  exact ⟨hp, fun r hc => by rw [hp] at hc; cases hc⟩

/-- Witness for C1: on an adapter whose two operations both fail, predict
returns exactly the decision-path error. -/
theorem predict_both_fail_claim_witness :
    predict coreBothFail wPrompt wAnswer = Except.error ("decision_function raised") :=
  (predict_both_fail_claim coreBothFail wPrompt wAnswer
    ("predict_proba raised") ("decision_function raised") rfl rfl).1




theorem list_sum_map_neg (l : List Char) (f : Char → ℝ) :
    (l.map (fun x => -(f x))).sum = -((l.map f).sum) := by
  induction l with
  | nil => simp
  | cons a t ih => simp [ih]; ring

theorem list_sum_map_mul_right (l : List Char) (f : Char → ℝ) (r : ℝ) :
    (l.map (fun x => f x * r)).sum = (l.map f).sum * r := by
  induction l with
  | nil => simp
  | cons a t ih => simp [ih]; ring

theorem list_sum_map_div (l : List Char) (f : Char → ℝ) (d : ℝ) :
    (l.map (fun x => f x / d)).sum = (l.map f).sum / d := by
  induction l with
  | nil => simp
  | cons a t ih => simp [ih]; ring

theorem list_sum_map_cast (l : List Char) (g : Char → ℕ) :
    (l.map (fun x => ((g x : ℕ) : ℝ))).sum = (((l.map g).sum : ℕ) : ℝ) := by
  induction l with
  | nil => simp
  | cons a t ih => simp [ih]

/-- Lower bound for the entropy sum: each term is at least
`-(p_c * log(1 + 1e-12))` and the probabilities sum to 1. -/
theorem token_entropy_ge (s : List Char) : -(1e-12 : ℝ) ≤ token_entropy s := by
  unfold token_entropy
  split_ifs with hnil
  · norm_num
  · set total : ℕ := (s.dedup.map (fun c => s.count c)).sum with htot
    have htl : total = s.length := List.sum_map_count_dedup_eq_length s
    have hlen : 0 < s.length := List.length_pos.mpr hnil
    have htpos : (0:ℝ) < (total : ℝ) := by
      rw [htl]
      exact_mod_cast hlen
    have hpt : ∀ c ∈ s.dedup,
        -((s.count c : ℝ) / (total : ℝ) * Real.log (1 + 1e-12)) ≤
        -((s.count c : ℝ) / (total : ℝ) *
          Real.log ((s.count c : ℝ) / (total : ℝ) + 1e-12)) := by
      intro c _
      have hp0 : 0 ≤ (s.count c : ℝ) / (total : ℝ) := by positivity
      have hcle : s.count c ≤ total := htl ▸ List.count_le_length c s
      have hp1 : (s.count c : ℝ) / (total : ℝ) ≤ 1 := by
        rw [div_le_one htpos]
        exact_mod_cast hcle
      have hlog : Real.log ((s.count c : ℝ) / (total : ℝ) + 1e-12) ≤
          Real.log (1 + 1e-12) :=
        Real.log_le_log (by positivity) (by linarith)
      exact neg_le_neg (mul_le_mul_of_nonneg_left hlog hp0)
    have hsum := List.sum_le_sum hpt
    have hlow : (s.dedup.map (fun c =>
        -((s.count c : ℝ) / (total : ℝ) * Real.log (1 + 1e-12)))).sum
        = -(Real.log (1 + 1e-12)) := by
      rw [list_sum_map_neg s.dedup
        (fun c => (s.count c : ℝ) / (total : ℝ) * Real.log (1 + 1e-12))]
      rw [list_sum_map_mul_right s.dedup
        (fun c => (s.count c : ℝ) / (total : ℝ)) (Real.log (1 + 1e-12))]
      rw [list_sum_map_div s.dedup (fun c => (s.count c : ℝ)) (total : ℝ)]
      rw [list_sum_map_cast s.dedup (fun c => s.count c)]
      rw [← htot, div_self (ne_of_gt htpos), one_mul]
    have heps : Real.log (1 + 1e-12) ≤ 1e-12 := by
      have := Real.log_le_sub_one_of_pos (show (0:ℝ) < 1 + 1e-12 by norm_num)
      linarith
    rw [hlow] at hsum
    linarith

theorem dedup_replicate_eq {α : Type} [DecidableEq α] (a : α) :
    ∀ n : ℕ, 1 ≤ n → (List.replicate n a).dedup = [a] := by
  intro n hn
  induction n with
  | zero => omega
  | succ m ih =>
    match m, ih with
    | 0, _ => simp
    | k + 1, ih =>
      rw [List.replicate_succ, List.dedup_cons_of_mem (by simp [List.mem_replicate])]
      exact ih (by omega)

/-- C2 (amended): char_entropy returns 0.0 on the empty string and is
always at least `-1e-12`; a string of one repeated character evaluates to
exactly `-log(1 + 1e-12)` — a slightly negative constant independent of
the repetition count — because the epsilon sits inside the logarithm. -/
theorem token_entropy_amended_claim :
    token_entropy [] = 0 ∧
    (∀ s : List Char, -(1e-12 : ℝ) ≤ token_entropy s) ∧
    (∀ n : ℕ, 1 ≤ n →
      token_entropy (List.replicate n 'a') = -Real.log (1 + 1e-12)) := by
  refine ⟨by simp [token_entropy], token_entropy_ge, ?_⟩
  intro n hn
  have hne : List.replicate n 'a' ≠ [] := by
    intro h
    have hlen := congrArg List.length h
    simp at hlen
    omega
  unfold token_entropy
  rw [if_neg hne, dedup_replicate_eq 'a' n hn]
  simp [List.count_replicate_self]
  have hn0 : ((n : ℕ) : ℝ) ≠ 0 := Nat.cast_ne_zero.mpr (by omega)
  rw [div_self hn0, one_mul]

/-- Counterexample for C2: on the one-character string "a" the entropy is
strictly negative (it equals `-log(1 + 1e-12)`), refuting "for every
input string the result is >= 0". -/
theorem token_entropy_counterexample : token_entropy ['a'] < 0 := by
  have hlog : 0 < Real.log (1 + 1e-12) := Real.log_pos (by norm_num)
  unfold token_entropy
  rw [if_neg (by simp)]
  simp
  linarith

/-- Witness for C2 (amended): the repeated-character clause applied at
repetition count 2. -/
theorem token_entropy_amended_claim_witness :
    token_entropy (List.replicate 2 'a') = -Real.log (1 + 1e-12) :=
  token_entropy_amended_claim.2.2 2 (by norm_num)

theorem argmaxAux_of_all_le (l : List ℝ) :
    ∀ (i bi : ℕ) (bv : ℝ), (∀ x ∈ l, x ≤ bv) → argmaxAux l i bi bv = bi := by
  induction l with
  | nil => intro i bi bv _; rfl
  | cons a t ih =>
    intro i bi bv h
    have ha : ¬ bv < a := not_lt.mpr (h a (List.mem_cons_self a t))
    rw [argmaxAux, if_neg ha]
    exact ih (i + 1) bi bv (fun x hx => h x (List.mem_cons_of_mem a hx))

theorem argmax_of_all_zero (l : List ℝ) (h : ∀ x ∈ l, x = 0) : argmax l = 0 := by
  cases l with
  | nil => rfl
  | cons a t =>
    rw [argmax]
    exact argmaxAux_of_all_le t 1 0 a
      (fun x hx => by rw [h x (List.mem_cons_of_mem a hx), h a (List.mem_cons_self a t)])

theorem mean_of_all_zero (l : List ℝ) (h : ∀ x ∈ l, x = 0) : mean l = 0 := by
  unfold mean
  rw [List.sum_eq_zero h, zero_div]

theorem rfftMag_length (x : List ℝ) :
    (rfftMag x).length = if x.length = 0 then 0 else x.length / 2 + 1 := by
  unfold rfftMag
  split_ifs with h
  · rfl
  · rw [List.length_map, List.length_range]

theorem rfftMag_zero_input (m : ℕ) :
    ∀ z ∈ rfftMag (List.replicate m (0:ℝ)), z = 0 := by
  intro z hz
  unfold rfftMag at hz
  split_ifs at hz with h
  · simp at hz
  · obtain ⟨k, _, rfl⟩ := List.mem_map.mp hz
    have hco : ∀ j ∈ Finset.range (List.replicate m (0:ℝ)).length,
        (((List.replicate m (0:ℝ)).getD j 0 : ℝ) : ℂ) *
          Complex.exp (-(2 * Real.pi * Complex.I) * j * k /
            (List.replicate m (0:ℝ)).length) = 0 := by
      intro j hj
      have hg : (List.replicate m (0:ℝ)).getD j 0 = 0 := by
        rcases lt_or_ge j m with hj2 | hj2
        · simp [List.getD_eq_getElem?_getD, List.getElem?_replicate, hj2]
        · simp [List.getD_eq_getElem?_getD, List.getElem?_replicate,
            Nat.not_lt.mpr hj2]
      rw [hg]
      simp
    rw [Finset.sum_congr rfl hco, Finset.sum_const_zero]
    simp

theorem spectrum_features_of_all_zero (v : List ℝ)
    (hv : ∀ z ∈ rfftMag v, z = 0) : spectrum_features v = ⟨0, 0, 0, 0⟩ := by
  have hlow : mean ((rfftMag v).take (max 1 ((rfftMag v).length / 6))) = 0 :=
    mean_of_all_zero _ (fun x hx => hv x (List.mem_of_mem_take hx))
  have hmid : mean (((rfftMag v).take (max 2 ((rfftMag v).length / 3))).drop
      (max 1 ((rfftMag v).length / 6))) = 0 :=
    mean_of_all_zero _
      (fun x hx => hv x (List.mem_of_mem_take (List.mem_of_mem_drop hx)))
  have hhigh : mean ((rfftMag v).drop (max 2 ((rfftMag v).length / 3))) = 0 :=
    mean_of_all_zero _ (fun x hx => hv x (List.mem_of_mem_drop hx))
  have hdom : argmax (rfftMag v) = 0 := argmax_of_all_zero _ hv
  simp only [spectrum_features]
  split_ifs with h0 h3 <;> simp [hlow, hmid, hhigh, hdom]

/-- C7: a zero answer embedding yields all-zero spectral features and
`omega = 2*pi*1e-6`; in general `omega = 2*pi*max(1e-6, dominant_frequency)`
and is therefore never zero. -/
theorem omega_claim :
    (∀ (encode : String → List ℝ) (prompt answer : String) (m : ℕ),
      encode answer = List.replicate m 0 →
      (extract_features encode prompt answer).freq_low = 0 ∧
      (extract_features encode prompt answer).freq_mid = 0 ∧
      (extract_features encode prompt answer).freq_high = 0 ∧
      (extract_features encode prompt answer).dominant_frequency = 0 ∧
      (extract_features encode prompt answer).omega = 2 * Real.pi * 1e-6) ∧
    (∀ (encode : String → List ℝ) (prompt answer : String),
      (extract_features encode prompt answer).omega =
        2 * Real.pi * max 1e-6 (spectrum_features (encode answer)).dominant_frequency ∧
      (extract_features encode prompt answer).omega ≠ 0) := by
  constructor
  · intro encode prompt answer m h
    have hsf : spectrum_features (encode answer) = ⟨0, 0, 0, 0⟩ := by
      rw [h]
      exact spectrum_features_of_all_zero _ (rfftMag_zero_input m)
    refine ⟨?_, ?_, ?_, ?_, ?_⟩ <;>
      simp [extract_features, hsf, max_eq_left (show (0:ℝ) ≤ 1e-6 by norm_num)]
  · intro encode prompt answer
    constructor
    · simp only [extract_features]
    · simp only [extract_features]
      have h1 : (0:ℝ) < max 1e-6 (spectrum_features (encode answer)).dominant_frequency :=
        lt_of_lt_of_le (by norm_num) (le_max_left _ _)
      have h2 : (0:ℝ) < 2 * Real.pi := by positivity
      exact ne_of_gt (mul_pos h2 h1)

/-- Witness for C7: an embedder returning the length-3 zero vector. -/
theorem omega_claim_witness :
    (extract_features wEmbedZero wPrompt wAnswer).freq_low = 0 ∧
    (extract_features wEmbedZero wPrompt wAnswer).freq_mid = 0 ∧
    (extract_features wEmbedZero wPrompt wAnswer).freq_high = 0 ∧
    (extract_features wEmbedZero wPrompt wAnswer).dominant_frequency = 0 ∧
    (extract_features wEmbedZero wPrompt wAnswer).omega = 2 * Real.pi * 1e-6 :=
  omega_claim.1 wEmbedZero wPrompt wAnswer 3 rfl

/-- C8: code-bug record.  The claim (and the code's own `y.size == 0`
guard) require the band decomposition to be total, with all four outputs
0.0 on an empty spectrum, but the `scipy.fft.rfft` call raises
`ValueError` on the zero-length input before that guard can run, so the
guard is dead code and the operation is not total.  On every nonempty
input the code is total (it agrees with the pure band decomposition) and
the fewer-than-3-bins defaulting of freq_mid and freq_high to 0.0 holds
as claimed. -/
theorem spectral_code_bug_claim :
    spectrum_featuresE ([] : List ℝ) = Except.error rfftErrorMsg ∧
    (∀ vec : List ℝ, vec ≠ [] →
      spectrum_featuresE vec = Except.ok (spectrum_features vec)) ∧
    (∀ vec : List ℝ, (rfftMag vec).length < 3 →
      (spectrum_features vec).freq_mid = 0 ∧ (spectrum_features vec).freq_high = 0) := by
  refine ⟨rfl, ?_, ?_⟩
  · intro vec h
    have hl : ¬ vec.length = 0 := fun hc => h (List.length_eq_zero.mp hc)
    simp [spectrum_featuresE, rfftE, hl]
  · intro vec h
    by_cases h0 : (rfftMag vec).length = 0
    · simp [spectrum_features, h0]
    · have h3 : ¬ 3 ≤ (rfftMag vec).length := by omega
      simp [spectrum_features, h0, h3]

/-- Witness for C8: the nonempty length-2 input [1,2] (a 2-bin spectrum)
succeeds with the pure band values and zero mid and high bands. -/
theorem spectral_code_bug_claim_witness :
    spectrum_featuresE [1, 2] = Except.ok (spectrum_features [1, 2]) ∧
    (spectrum_features [1, 2]).freq_mid = 0 ∧ (spectrum_features [1, 2]).freq_high = 0 := by
  refine ⟨spectral_code_bug_claim.2.1 [1, 2] (by simp), ?_, ?_⟩
  · exact (spectral_code_bug_claim.2.2 [1, 2] (by simp [rfftMag_length])).1
  · exact (spectral_code_bug_claim.2.2 [1, 2] (by simp [rfftMag_length])).2

/-- The one-sided magnitude spectrum of the length-2 vector [1, -1] has
two bins: the DC bin 0 and the Nyquist bin 2. -/
theorem rfftMag_pair : rfftMag [1, -1] = [0, 2] := by
  unfold rfftMag
  rw [if_neg (by simp)]
  have hr : List.range (([1, -1] : List ℝ).length / 2 + 1) = [0, 1] := rfl
  rw [hr, List.map_cons, List.map_cons, List.map_nil]
  have hg0 : (([1, -1] : List ℝ).getD 0 0 : ℝ) = 1 := rfl
  have hg1 : (([1, -1] : List ℝ).getD 1 0 : ℝ) = -1 := rfl
  have hlen : (([1, -1] : List ℝ).length : ℂ) = 2 := by norm_num
  have hL2 : ([1, -1] : List ℝ).length = 2 := rfl
  have hrange : Finset.range (([1, -1] : List ℝ).length) = {0, 1} := by
    rw [hL2]
    decide
  congr 1
  · rw [hrange, Finset.sum_insert (by decide), Finset.sum_singleton]
    rw [hg0, hg1]
    norm_num
  · congr 1
    rw [hrange, Finset.sum_insert (by decide), Finset.sum_singleton]
    rw [hg0, hg1, hlen]
    have he : -(2 * (Real.pi : ℂ) * Complex.I) * ((1:ℕ) : ℂ) * ((1:ℕ) : ℂ) / 2 =
        -((Real.pi : ℂ) * Complex.I) := by
      push_cast
      ring
    rw [he, Complex.exp_neg, Complex.exp_pi_mul_I]
    norm_num [Complex.abs_two]

/-- C10 counterexample: a length-2 input does not have a one-bin
spectrum — [1, -1] has a 2-bin spectrum, and its dominant_frequency is 1,
not 0, refuting the claim's "(input length 1 or 2)" reading. -/
theorem dominant_frequency_counterexample :
    (rfftMag [1, -1]).length = 2 ∧
    (spectrum_features [1, -1]).dominant_frequency = 1 := by
  have hy := rfftMag_pair
  have ha : argmax [(0:ℝ), 2] = 1 := by
    simp only [argmax, argmaxAux]
    rw [if_pos (by norm_num : (0:ℝ) < 2)]
  constructor
  · rw [hy]
    rfl
  · simp only [spectrum_features]
    rw [hy, if_neg (by simp)]
    simp [ha]

/-- C10 (amended): when the one-sided spectrum has exactly one frequency
bin — which happens only for input length 1 — dominant_frequency is 0,
and the normalizing denominator `max 1 (bin_count - 1)` is at least 1 for
every input, so the normalization never divides by zero. -/
theorem dominant_frequency_one_bin_claim :
    (∀ vec : List ℝ, (rfftMag vec).length = 1 →
      (spectrum_features vec).dominant_frequency = 0) ∧
    (∀ vec : List ℝ, 1 ≤ max 1 ((rfftMag vec).length - 1)) := by
  constructor
  · intro vec h
    obtain ⟨a, ha⟩ := List.length_eq_one.mp h
    simp only [spectrum_features]
    rw [ha, if_neg (by simp)]
    simp [argmax, argmaxAux]
  · intro vec
    exact le_max_left 1 _

/-- Witness for C10 (amended): the singleton input [5] has a one-bin
spectrum and dominant_frequency 0. -/
theorem dominant_frequency_one_bin_claim_witness :
    (spectrum_features [5]).dominant_frequency = 0 :=
  dominant_frequency_one_bin_claim.1 [5] (by simp [rfftMag_length])
